import Mathlib

/-
Verification of the caption-timing core of the vox-studio backend
(src/backend/captions.py, plus its caller src/backend/routes/narration.py).

Embedding conventions:
- Python strings are modelled as List Char (ASCII inputs; Python
  str.strip / str.split whitespace is modelled by the six ASCII
  whitespace characters, and str.lower by Char.toLower, which agree
  with Python on ASCII data).
- Python floats are modelled as exact rationals.
- Python list indexing, which raises IndexError when out of range, is
  modelled with Except Unit.
- All recursion is structural so that concrete inputs evaluate inside
  the kernel.
-/

namespace Captions

/-- Python str whitespace restricted to ASCII: space, tab, newline,
carriage return, vertical tab, form feed. -/
def pyIsSpace (c : Char) : Bool :=
  c = ' ' || c = '\t' || c = '\n' || c = '\r' || c = '\x0b' || c = '\x0c'

/-- Python str.strip with no argument: drop leading and trailing whitespace. -/
def pyStrip (l : List Char) : List Char :=
  ((l.dropWhile pyIsSpace).reverse.dropWhile pyIsSpace).reverse

/-- Python str.rstrip with no argument: drop trailing whitespace. -/
def pyRstripWS (l : List Char) : List Char :=
  (l.reverse.dropWhile pyIsSpace).reverse

/-- Python str.rstrip with an explicit character set. -/
def rstripSet (cs : List Char) (l : List Char) : List Char :=
  (l.reverse.dropWhile (cs.contains ·)).reverse

/-- Python str.lower (ASCII fragment). -/
def pyLower (l : List Char) : List Char := l.map Char.toLower

/-- Helper for Python str.split with no argument: accumulate the current
word while scanning. -/
def pyWordsAux (cur : List Char) : List Char → List (List Char)
  | [] => if cur = [] then [] else [cur]
  | c :: rest =>
    if pyIsSpace c then
      if cur = [] then pyWordsAux [] rest else cur :: pyWordsAux [] rest
    else pyWordsAux (cur ++ [c]) rest

/-- Python str.split with no argument: split on whitespace runs,
dropping empty parts. -/
def pyWords (l : List Char) : List (List Char) := pyWordsAux [] l

/-- A sentence with paragraph break info; mirrors the SentencePiece
NamedTuple of captions.py. -/
structure SentencePiece where
  text : List Char
  paragraph_break_before : Bool
deriving DecidableEq

/-- The abbreviation denylist _NON_TERMINAL_ABBREVIATIONS of captions.py. -/
def NON_TERMINAL_ABBREVIATIONS : List (List Char) :=
  ["mr.", "mrs.", "ms.", "dr.", "prof.", "sr.", "jr.",
   "etc.", "vs.", "e.g.", "i.e.", "a.m.", "p.m."].map String.data

/-- The sentence-starter allowlist _COMMON_SENTENCE_STARTERS of captions.py. -/
def COMMON_SENTENCE_STARTERS : List (List Char) :=
  ["a", "an", "and", "but", "he", "she", "it", "i", "you", "we", "they",
   "the", "there", "these", "those", "this", "that", "what", "when",
   "where", "why", "how", "who", "which", "so", "then", "now"].map String.data

/-- Mirror of _sentence_ends_with_abbreviation: last whitespace word,
stripped of trailing quote and bracket characters, lowercased, looked up
in the abbreviation list.  The source returns False both for empty text
and for an empty word list; getLast? covers both. -/
def sentence_ends_with_abbreviation (text : List Char) : Bool :=
  match (pyWords (pyRstripWS text)).getLast? with
  | none => false
  | some w =>
    NON_TERMINAL_ABBREVIATIONS.contains
      (pyLower (rstripSet ['"', '\'', ')', ']', '\x7d'] w))

/-- Mirror of _starts_like_new_sentence: first whitespace word, stripped
of leading quote and bracket characters, lowercased, looked up in the
starter list. -/
def starts_like_new_sentence (part : List Char) : Bool :=
  match pyWords part with
  | [] => false
  | w :: _ =>
    let fw := w.dropWhile
      (['"', '\'', '“', '”', '‘', '’', '(', '[', '\x7b'].contains ·)
    if fw = [] then false else COMMON_SENTENCE_STARTERS.contains (pyLower fw)

/-- Prepend a character to the first piece of a piece list. -/
def consHead (c : Char) : List (List Char) → List (List Char)
  | [] => [[c]]
  | p :: ps => (c :: p) :: ps

/-- Python text.split with a two-newline separator: leftmost,
non-overlapping occurrences of the separator cut the list. -/
def splitOnNN : List Char → List (List Char)
  | [] => [[]]
  | [c] => [[c]]
  | c :: d :: rest =>
    if c = '\n' ∧ d = '\n' then [] :: splitOnNN rest
    else consHead c (splitOnNN (d :: rest))

/-- Sentence-terminating punctuation of the paragraph-splitting regex. -/
def isTerm (c : Char) : Bool := c = '.' || c = '!' || c = '?'

/-- The regex split on whitespace that immediately follows terminating
punctuation.  The first flag records whether we are inside a matched
whitespace run; the second records whether the previously consumed
character was terminating punctuation. -/
def reSplitAux : Bool → Bool → List Char → List (List Char)
  | _, _, [] => [[]]
  | skipping, prevTerm, c :: rest =>
    if skipping then
      if pyIsSpace c then reSplitAux true false rest
      else consHead c (reSplitAux false (isTerm c) rest)
    else if prevTerm && pyIsSpace c then [] :: reSplitAux true false rest
    else consHead c (reSplitAux false (isTerm c) rest)

/-- Split a paragraph into candidate sentences. -/
def reSplitSent (l : List Char) : List (List Char) := reSplitAux false false l

/-- Merge a candidate into the last accepted sentence, space-joined,
keeping that sentence's paragraph flag; mirrors the merge assignment of
split_into_sentences. -/
def mergeLast (part : List Char) : List SentencePiece → List SentencePiece
  | [] => []
  | [s] => [⟨s.text ++ ' ' :: part, s.paragraph_break_before⟩]
  | s :: t :: rest => s :: mergeLast part (t :: rest)

/-- The merge condition of split_into_sentences: a previous accepted
sentence exists (getLast? is some), the candidate is not the first of
its paragraph, the previous sentence ends with a protected abbreviation
and the candidate does not look like a new sentence. -/
def shouldMerge (acc : List SentencePiece) (first : Bool) (part : List Char) : Bool :=
  match acc.getLast? with
  | none => false
  | some prev =>
    !first && sentence_ends_with_abbreviation prev.text
      && !starts_like_new_sentence part

/-- The inner candidate loop of split_into_sentences.  An empty
candidate is skipped without clearing the first-in-paragraph flag,
exactly as the continue statement does in the source. -/
def processParts (seen : Bool) : List (List Char) → Bool → List SentencePiece → List SentencePiece
  | [], _, acc => acc
  | p :: ps, first, acc =>
    let part := pyStrip p
    if part = [] then processParts seen ps first acc
    else if shouldMerge acc first part then
      processParts seen ps false (mergeLast part acc)
    else
      processParts seen ps false (acc ++ [⟨part, seen && first⟩])

/-- The outer paragraph loop of split_into_sentences.  A paragraph that
is empty after stripping is skipped without setting the seen flag,
exactly as the continue statement does in the source. -/
def paraLoop : List (List Char) → Bool → List SentencePiece → List SentencePiece
  | [], _, acc => acc
  | p :: ps, seen, acc =>
    let para := pyStrip p
    if para = [] then paraLoop ps seen acc
    else paraLoop ps true (processParts seen (reSplitSent para) true acc)

/-- Mirror of split_into_sentences of captions.py. -/
def split_into_sentences (text : List Char) : List SentencePiece :=
  paraLoop (splitOnNN text) false []

/-- One timed subtitle cue; start and end times in seconds. -/
structure Cue where
  startTime : ℚ
  endTime : ℚ
  text : List Char
deriving DecidableEq

/-- Cue start and end computation of one loop iteration of
create_simple_vtt (lines 179 to 197 of captions.py): lead-in start
clamped at zero, lead-out end, minimum-duration extension, overlap clamp
against the previous caption end, and a second minimum-duration
extension after the clamp. -/
def stepCue (leadIn leadOut : ℚ) (isFirst : Bool) (audioTime audioEnd lastEnd : ℚ) : ℚ × ℚ :=
  let capStart := max 0 (audioTime - leadIn)
  let capEnd0 := audioEnd - leadOut
  let capEnd1 := if capEnd0 - capStart < 3/10 then capStart + 3/10 else capEnd0
  if isFirst = false ∧ capStart < lastEnd then
    (lastEnd, if capEnd1 - lastEnd < 3/10 then lastEnd + 3/10 else capEnd1)
  else (capStart, capEnd1)

/-- The cue loop of create_simple_vtt: threads the audio-time cursor and
the previous caption end, allocates each sentence a character-
proportional share of the total duration, and returns the cue list
together with the final audio-time cursor. -/
def simpleCuesAux (dur : ℚ) (T : ℕ) (leadIn leadOut pGap sGap : ℚ) :
    List SentencePiece → Bool → ℚ → ℚ → List Cue × ℚ
  | [], _, audioTime, _ => ([], audioTime)
  | s :: rest, isFirst, audioTime, lastEnd =>
    let t := if isFirst then audioTime
             else if s.paragraph_break_before then audioTime + pGap
             else audioTime + sGap
    let audioEnd := t + dur * (s.text.length : ℚ) / (T : ℚ)
    let p := stepCue leadIn leadOut isFirst t audioEnd lastEnd
    let r := simpleCuesAux dur T leadIn leadOut pGap sGap rest false audioEnd p.2
    (⟨p.1, p.2, s.text⟩ :: r.1, r.2)

/-- Total character count across sentences, the proportional-allocation
denominator of create_simple_vtt. -/
def totalChars (sents : List SentencePiece) : ℕ :=
  (sents.map (fun s => s.text.length)).sum

/-- The cue sequence produced by create_simple_vtt; millisecond
configuration integers are converted to seconds exactly as in the
source. -/
def simpleCues (text : List Char) (dur : ℚ) (lin lout pg sg : ℤ) : List Cue :=
  let sents := split_into_sentences text
  (simpleCuesAux dur (totalChars sents)
    ((lin : ℚ) / 1000) ((lout : ℚ) / 1000) ((pg : ℚ) / 1000) ((sg : ℚ) / 1000)
    sents true 0 0).1

/-- The final audio-time cursor left by the cue loop of
create_simple_vtt. -/
def simpleFinalAudio (text : List Char) (dur : ℚ) (lin lout pg sg : ℤ) : ℚ :=
  let sents := split_into_sentences text
  (simpleCuesAux dur (totalChars sents)
    ((lin : ℚ) / 1000) ((lout : ℚ) / 1000) ((pg : ℚ) / 1000) ((sg : ℚ) / 1000)
    sents true 0 0).2

/-- Decimal digit character. -/
def digitChar (n : ℕ) : Char := Char.ofNat (48 + n)

/-- Decimal digits of a natural number, with fuel so the recursion is
structural; the fuel n + 1 always suffices. -/
def natReprAux : ℕ → ℕ → List Char
  | 0, _ => []
  | fuel + 1, n =>
    if n < 10 then [digitChar n]
    else natReprAux fuel (n / 10) ++ [digitChar (n % 10)]

/-- Decimal rendering of a natural number. -/
def natRepr (n : ℕ) : List Char := natReprAux (n + 1) n

/-- Left zero padding to a minimum width, as Python 0-width format
specifiers do. -/
def padLeftZeros (w : ℕ) (l : List Char) : List Char :=
  List.replicate (w - l.length) '0' ++ l

/-- Python formatting of an integer with a 0-padded minimum width
(zero padding goes after the sign). -/
def zpadInt (w : ℕ) (z : ℤ) : List Char :=
  if z < 0 then '-' :: padLeftZeros (w - 1) (natRepr (-z).toNat)
  else padLeftZeros w (natRepr z.toNat)

/-- Python float modulus with a positive modulus: q - m * floor (q / m),
always in [0, m). -/
def pyMod (q m : ℚ) : ℚ := q - m * (⌊q / m⌋ : ℚ)

/-- Round to the nearest integer, ties to even; the rounding Python
applies when formatting an exactly representable value with a fixed
number of decimals. -/
def roundHalfEven (q : ℚ) : ℤ :=
  let f := ⌊q⌋
  let r := q - (f : ℚ)
  if r < 1/2 then f
  else if 1/2 < r then f + 1
  else if f % 2 = 0 then f else f + 1

/-- Python formatting with format spec 06.3f: three decimals, zero
padded to total width six.  The argument is a Python float modulus
result, hence nonnegative; the negative branch is unreachable but kept
total. -/
def formatFixed3 (s : ℚ) : List Char :=
  let m := roundHalfEven (s * 1000)
  if m < 0 then
    '-' :: padLeftZeros 5
      (natRepr ((-m).toNat / 1000) ++ '.' :: padLeftZeros 3 (natRepr ((-m).toNat % 1000)))
  else
    padLeftZeros 6
      (natRepr (m.toNat / 1000) ++ '.' :: padLeftZeros 3 (natRepr (m.toNat % 1000)))

/-- Mirror of format_timestamp of captions.py: hours by floor division
by 3600, minutes by floor division of the remainder by 60, seconds as
the remainder modulo 60 formatted with three decimals.  Python int() of
an already floored float is the floor itself. -/
def format_timestamp (q : ℚ) : List Char :=
  zpadInt 2 ⌊q / 3600⌋ ++ ':' :: zpadInt 2 ⌊pyMod q 3600 / 60⌋
    ++ ':' :: formatFixed3 (pyMod q 60)

/-- Render a cue list as numbered VTT blocks, as both VTT builders of
captions.py do. -/
def renderCues : ℕ → List Cue → List Char
  | _, [] => []
  | n, c :: cs =>
    natRepr n ++ '\n'
      :: (format_timestamp c.startTime ++ " --> ".data ++ format_timestamp c.endTime)
      ++ '\n' :: c.text ++ '\n' :: '\n' :: renderCues (n + 1) cs

/-- Mirror of create_simple_vtt of captions.py: the bare header when
there are no sentences or no characters, otherwise the header followed
by the rendered cue blocks. -/
def create_simple_vtt (text : List Char) (dur : ℚ) (lin lout pg sg : ℤ) : List Char :=
  let header := "WEBVTT\n\n".data
  let sents := split_into_sentences text
  if sents = [] then header
  else if totalChars sents = 0 then header
  else header ++ renderCues 1 (simpleCues text dur lin lout pg sg)

/-- A word reconstructed from per-character alignment data. -/
structure AlignWord where
  text : List Char
  start : ℚ
  stop : ℚ
deriving DecidableEq

/-- Word-boundary characters of create_vtt_from_alignment. -/
def boundaryChar (c : Char) : Bool :=
  c = ' ' || c = '.' || c = ',' || c = '!' || c = '?' || c = ';' || c = ':'

/-- The character-scanning loop of create_vtt_from_alignment.  The start
times list is indexed only when a new word begins and the end times list
at every character; an out-of-range index raises IndexError, modelled as
Except.error.  A finished word is kept only when its stripped text is
non-empty. -/
def wordsLoop (starts ends : List ℚ) : List Char → ℕ → List Char → Option ℚ → Except Unit (List AlignWord)
  | [], _, _, _ => .ok []
  | c :: rest, i, curWord, wordStart =>
    match (match wordStart with | none => starts[i]? | some v => some v) with
    | none => .error ()
    | some ws =>
      let cur := curWord ++ [c]
      match ends[i]? with
      | none => .error ()
      | some we =>
        if boundaryChar c || rest.isEmpty then
          match wordsLoop starts ends rest (i + 1) [] none with
          | .error e => .error e
          | .ok tail =>
            if pyStrip cur = [] then .ok tail
            else .ok (⟨pyStrip cur, ws, we⟩ :: tail)
        else wordsLoop starts ends rest (i + 1) cur (some ws)

/-- Words of a cue joined by single spaces. -/
def spaceJoin : List (List Char) → List Char
  | [] => []
  | [w] => w
  | w :: x :: rest => w ++ ' ' :: spaceJoin (x :: rest)

/-- A cue built from one chunk of words: start of the first word, end of
the last word, texts space-joined. -/
def mkCue (chunk : List AlignWord) : Cue :=
  ⟨(chunk.headD ⟨[], 0, 0⟩).start,
   (chunk.getLastD ⟨[], 0, 0⟩).stop,
   spaceJoin (chunk.map AlignWord.text)⟩

/-- Chunking of the word list into groups of eight, as the slicing loop
of create_vtt_from_alignment does. -/
def chunkCuesAux : List AlignWord → List AlignWord → List Cue
  | chunk, [] => if chunk = [] then [] else [mkCue chunk]
  | chunk, w :: rest =>
    let chunk' := chunk ++ [w]
    if chunk'.length = 8 then mkCue chunk' :: chunkCuesAux [] rest
    else chunkCuesAux chunk' rest

/-- Group words eight per caption. -/
def chunkCues (ws : List AlignWord) : List Cue := chunkCuesAux [] ws

/-- The cue sequence of create_vtt_from_alignment, given the three
sequences extracted from the alignment payload (a missing payload or
missing key yields empty lists through dict.get defaults, so the
emptiness guard of the source is the first check here). -/
def alignmentCues (characters : List Char) (starts ends : List ℚ) : Except Unit (List Cue) :=
  if characters = [] ∨ starts = [] ∨ ends = [] then .ok []
  else
    match wordsLoop starts ends characters 0 [] none with
    | .error e => .error e
    | .ok ws => .ok (chunkCues ws)

/-- Mirror of create_vtt_from_alignment of captions.py at the rendered
string level. -/
def create_vtt_from_alignment (characters : List Char) (starts ends : List ℚ) : Except Unit (List Char) :=
  match alignmentCues characters starts ends with
  | .error e => .error e
  | .ok cs => .ok ("WEBVTT\n\n".data ++ renderCues 1 cs)

/-- Modelled from the spec: create_vtt_from_real_durations is imported
by src/backend/routes/narration.py from the captions module and called
with per-sentence measured durations, but its definition is absent from
src/.  Spec section 4.3: identical cursor-advance structure to the
estimated-duration mode, except the allocated speaking duration of
sentence i is perSentenceDurations[i].  The loop below is therefore the
loop of create_simple_vtt with the proportional allocation replaced by
the paired duration. -/
def realCuesAux (leadIn leadOut pGap sGap : ℚ) :
    List (SentencePiece × ℚ) → Bool → ℚ → ℚ → List Cue × ℚ
  | [], _, audioTime, _ => ([], audioTime)
  | (s, d) :: rest, isFirst, audioTime, lastEnd =>
    let t := if isFirst then audioTime
             else if s.paragraph_break_before then audioTime + pGap
             else audioTime + sGap
    let audioEnd := t + d
    let p := stepCue leadIn leadOut isFirst t audioEnd lastEnd
    let r := realCuesAux leadIn leadOut pGap sGap rest false audioEnd p.2
    (⟨p.1, p.2, s.text⟩ :: r.1, r.2)

/-- Modelled from the spec: cue sequence of the real-duration mode,
sentences paired with their measured durations by position. -/
def realCues (sents : List SentencePiece) (durs : List ℚ) (lin lout pg sg : ℤ) : List Cue :=
  (realCuesAux ((lin : ℚ) / 1000) ((lout : ℚ) / 1000) ((pg : ℚ) / 1000) ((sg : ℚ) / 1000)
    (sents.zip durs) true 0 0).1

/-- Modelled from the spec: rendered output of the real-duration mode. -/
def create_vtt_from_real_durations (sents : List SentencePiece) (durs : List ℚ)
    (lin lout pg sg : ℤ) : List Char :=
  "WEBVTT\n\n".data ++ renderCues 1 (realCues sents durs lin lout pg sg)

/-- Non-whitespace characters of a list, in order. -/
def filterNW (l : List Char) : List Char := l.filter (fun c => !pyIsSpace c)

/-- Sum of the gaps inserted before every sentence of a list. -/
def gapsAll (pg sg : ℚ) : List SentencePiece → ℚ
  | [] => 0
  | s :: rest => (if s.paragraph_break_before then pg else sg) + gapsAll pg sg rest

/-- Sum of the gaps inserted before every sentence except the first. -/
def gapsAfterFirst (pg sg : ℚ) : List SentencePiece → ℚ
  | [] => 0
  | _ :: rest => gapsAll pg sg rest

/-- Sum of the proportional speaking-time allocations of a sentence
list. -/
def speakSum (dur : ℚ) (T : ℕ) : List SentencePiece → ℚ
  | [] => 0
  | s :: rest => dur * (s.text.length : ℚ) / (T : ℚ) + speakSum dur T rest

/-- Chain predicate for cue lists: every cue starts no earlier than the
bound, lasts at least 0.3 seconds, and bounds the rest by its end. -/
def cuesOrdered : ℚ → List Cue → Prop
  | _, [] => True
  | e, c :: cs => e ≤ c.startTime ∧ 3/10 ≤ c.endTime - c.startTime ∧ cuesOrdered c.endTime cs

/-- Shape check for the seconds field SS.mmm of a rendered timestamp. -/
def secShape : List Char → Bool
  | [u, v, d, x, y, z] =>
    u.isDigit && v.isDigit && d = '.' && x.isDigit && y.isDigit && z.isDigit
  | _ => false

/-- Shape check for a full rendered timestamp HH:MM:SS.mmm with exactly
two-digit hours, minutes and seconds and three-digit milliseconds. -/
def vttShape : List Char → Bool
  | [h1, h2, c1, m1, m2, c2, s1, s2, d, x1, x2, x3] =>
    h1.isDigit && h2.isDigit && c1 = ':' && m1.isDigit && m2.isDigit && c2 = ':'
      && s1.isDigit && s2.isDigit && d = '.' && x1.isDigit && x2.isDigit && x3.isDigit
  | _ => false

/-- Per-paragraph reformulation of the segmenter: each non-empty
paragraph is processed independently from an empty accumulator and the
blocks are concatenated.  Used to state that merging never crosses a
paragraph boundary. -/
def paraSentences (seen : Bool) (para : List Char) : List SentencePiece :=
  processParts seen (reSplitSent para) true []

/-- Per-paragraph segmentation of a whole text, the comparison point for
the cross-paragraph invariant. -/
def perParagraphSplit : Bool → List (List Char) → List SentencePiece
  | _, [] => []
  | seen, p :: ps =>
    let para := pyStrip p
    if para = [] then perParagraphSplit seen ps
    else paraSentences seen para ++ perParagraphSplit true ps

/-- Concatenated non-whitespace content of a sentence list. -/
def nwConcat (acc : List SentencePiece) : List Char :=
  (acc.map fun s => filterNW s.text).flatten

deriving instance DecidableEq for Except

lemma stepCue_min_duration (leadIn leadOut : ℚ) (b : Bool) (t aEnd e : ℚ) :
    3/10 ≤ (stepCue leadIn leadOut b t aEnd e).2 - (stepCue leadIn leadOut b t aEnd e).1 := by
  simp only [stepCue]
  split_ifs <;> simp <;> linarith

lemma stepCue_start_le (leadIn leadOut : ℚ) (t aEnd e : ℚ) :
    e ≤ (stepCue leadIn leadOut false t aEnd e).1 := by
  simp only [stepCue]
  by_cases hc : max 0 (t - leadIn) < e
  · rw [if_pos ⟨trivial, hc⟩]
  · rw [if_neg (fun hh => hc hh.2)]
    exact le_of_not_lt hc

lemma stepCue_fst_nonneg (leadIn leadOut : ℚ) (t aEnd e : ℚ) :
    0 ≤ (stepCue leadIn leadOut true t aEnd e).1 := by
  simp only [stepCue]
  rw [if_neg (fun hh => absurd hh.1 (by simp))]
  exact le_max_left 0 _

lemma simpleCuesAux_ordered (dur : ℚ) (T : ℕ) (lin lout pg sg : ℚ) :
    ∀ (sents : List SentencePiece) (t e : ℚ),
      cuesOrdered e (simpleCuesAux dur T lin lout pg sg sents false t e).1
  | [], _, _ => trivial
  | s :: rest, t, e => by
    simp only [simpleCuesAux, cuesOrdered]
    exact ⟨stepCue_start_le _ _ _ _ _, stepCue_min_duration _ _ _ _ _ _,
      simpleCuesAux_ordered dur T lin lout pg sg rest _ _⟩

lemma simpleCuesAux_ordered_true (dur : ℚ) (T : ℕ) (lin lout pg sg : ℚ)
    (sents : List SentencePiece) (t : ℚ) :
    cuesOrdered 0 (simpleCuesAux dur T lin lout pg sg sents true t 0).1 := by
  cases sents with
  | nil => trivial
  | cons s rest =>
    simp only [simpleCuesAux, cuesOrdered]
    exact ⟨stepCue_fst_nonneg _ _ _ _ _, stepCue_min_duration _ _ _ _ _ _,
      simpleCuesAux_ordered dur T lin lout pg sg rest _ _⟩

lemma cuesOrdered_adjacent :
    ∀ (cs : List Cue) (e : ℚ), cuesOrdered e cs →
      ∀ (i : ℕ) (h : i + 1 < cs.length),
        (cs.get ⟨i, Nat.lt_of_succ_lt h⟩).endTime ≤ (cs.get ⟨i + 1, h⟩).startTime
  | [], _, _, i, h => absurd h (by simp)
  | [_], _, _, i, h => by simp at h
  | _ :: c1 :: rest, e, hord, 0, h => hord.2.2.1
  | c0 :: c1 :: rest, e, hord, i + 1, h =>
    cuesOrdered_adjacent (c1 :: rest) c0.endTime hord.2.2 i (by simpa using h)

lemma cuesOrdered_min :
    ∀ (cs : List Cue) (e : ℚ), cuesOrdered e cs →
      ∀ (i : ℕ) (h : i < cs.length),
        3/10 ≤ (cs.get ⟨i, h⟩).endTime - (cs.get ⟨i, h⟩).startTime
  | [], _, _, i, h => absurd h (by simp)
  | c :: rest, e, hord, 0, h => hord.2.1
  | c :: rest, e, hord, i + 1, h =>
    cuesOrdered_min rest c.endTime hord.2.2 i (by simpa using h)

lemma cuesOrdered_mem :
    ∀ (cs : List Cue) (e : ℚ), cuesOrdered e cs →
      ∀ c ∈ cs, 3/10 ≤ c.endTime - c.startTime
  | [], _, _, c, hc => absurd hc (by simp)
  | c0 :: rest, e, hord, c, hc => by
    rcases List.mem_cons.mp hc with h | h
    · exact h ▸ hord.2.1
    · exact cuesOrdered_mem rest c0.endTime hord.2.2 c h

lemma simpleCues_ordered (text : List Char) (dur : ℚ) (lin lout pg sg : ℤ) :
    cuesOrdered 0 (simpleCues text dur lin lout pg sg) := by
  simp only [simpleCues]
  exact simpleCuesAux_ordered_true _ _ _ _ _ _ _ _

lemma simpleCuesAux_cursor (dur : ℚ) (T : ℕ) (lin lout pg sg : ℚ) :
    ∀ (sents : List SentencePiece) (t e : ℚ),
      (simpleCuesAux dur T lin lout pg sg sents false t e).2
        = t + speakSum dur T sents + gapsAll pg sg sents
  | [], t, e => by simp [simpleCuesAux, speakSum, gapsAll]
  | s :: rest, t, e => by
    simp [simpleCuesAux, speakSum, gapsAll,
      simpleCuesAux_cursor dur T lin lout pg sg rest]
    split_ifs <;> ring

lemma simpleCuesAux_cursor_true (dur : ℚ) (T : ℕ) (lin lout pg sg : ℚ)
    (sents : List SentencePiece) (t e : ℚ) :
    (simpleCuesAux dur T lin lout pg sg sents true t e).2
      = t + speakSum dur T sents + gapsAfterFirst pg sg sents := by
  cases sents with
  | nil => simp [simpleCuesAux, speakSum, gapsAfterFirst]
  | cons s rest =>
    simp [simpleCuesAux, speakSum, gapsAfterFirst,
      simpleCuesAux_cursor dur T lin lout pg sg rest]
    ring

lemma speakSum_eq (dur : ℚ) (T : ℕ) :
    ∀ sents : List SentencePiece,
      speakSum dur T sents = dur * (totalChars sents : ℚ) / (T : ℚ)
  | [] => by simp [speakSum, totalChars]
  | s :: rest => by
    have ih := speakSum_eq dur T rest
    simp only [speakSum, totalChars, List.map_cons, List.sum_cons] at *
    rw [ih]
    push_cast
    ring

lemma speakSum_self (dur : ℚ) (sents : List SentencePiece)
    (h : totalChars sents ≠ 0) :
    speakSum dur (totalChars sents) sents = dur := by
  rw [speakSum_eq, mul_div_assoc, div_self (by exact_mod_cast h), mul_one]

/-- C1: for every input text, total duration and configuration, the cue
sequence produced by create_simple_vtt is time-ordered and
non-overlapping, with every adjacent pair satisfying endTime at most the
next startTime, and every cue lasting at least 0.3 seconds. -/
theorem simple_vtt_cues_ordered_min_duration (text : List Char) (dur : ℚ) (lin lout pg sg : ℤ) :
    (∀ (i : ℕ) (h : i + 1 < (simpleCues text dur lin lout pg sg).length),
        ((simpleCues text dur lin lout pg sg).get ⟨i, Nat.lt_of_succ_lt h⟩).endTime
          ≤ ((simpleCues text dur lin lout pg sg).get ⟨i + 1, h⟩).startTime)
      ∧ ∀ (i : ℕ) (h : i < (simpleCues text dur lin lout pg sg).length),
          3/10 ≤ ((simpleCues text dur lin lout pg sg).get ⟨i, h⟩).endTime
            - ((simpleCues text dur lin lout pg sg).get ⟨i, h⟩).startTime :=
  ⟨cuesOrdered_adjacent _ _ (simpleCues_ordered text dur lin lout pg sg),
   cuesOrdered_min _ _ (simpleCues_ordered text dur lin lout pg sg)⟩

/-- Witness for C1 at the two-sentence text Hi. Yo. with duration 1. -/
theorem simple_vtt_cues_ordered_min_duration_witness :
    0 + 1 < (simpleCues "Hi. Yo.".data 1 50 120 600 150).length
      ∧ ((simpleCues "Hi. Yo.".data 1 50 120 600 150).get
            ⟨0, by with_unfolding_all decide⟩).endTime
        ≤ ((simpleCues "Hi. Yo.".data 1 50 120 600 150).get
            ⟨1, by with_unfolding_all decide⟩).startTime :=
  ⟨by with_unfolding_all decide,
   (simple_vtt_cues_ordered_min_duration "Hi. Yo.".data 1 50 120 600 150).1 0
     (by with_unfolding_all decide)⟩

/-- C2: the real-duration synthesis (modelled from the spec, since its
definition is absent from src/ although routes/narration.py imports and
calls it) runs the identical cursor-advance loop as the
estimated-duration mode of create_simple_vtt: pairing each sentence with
its character-proportional allocation makes the two loops agree on every
state. -/
theorem real_duration_mode_matches_estimated_mode
    (sents : List SentencePiece) (dur : ℚ) (T : ℕ) (lin lout pg sg : ℚ)
    (b : Bool) (t e : ℚ) :
    realCuesAux lin lout pg sg
        (sents.map fun s => (s, dur * (s.text.length : ℚ) / (T : ℚ))) b t e
      = simpleCuesAux dur T lin lout pg sg sents b t e := by
  induction sents generalizing b t e with
  | nil => rfl
  | cons s rest ih =>
    simp only [List.map_cons, realCuesAux, simpleCuesAux]
    rw [ih]

/-- C3 counterexample: on an empty sentence sequence, create_simple_vtt
does not report any failure; it silently returns the bare header with an
empty cue sequence. -/
theorem empty_text_silent_header :
    create_simple_vtt "".data 5 50 120 600 150 = "WEBVTT\n\n".data
      ∧ simpleCues "".data 5 50 120 600 150 = [] :=
  ⟨by decide, by decide⟩

/-- C3 amended: presented with an empty sentence sequence,
create_simple_vtt silently returns the bare VTT header with no cues
rather than failing with an InvalidInput condition; on non-empty
sequences numeric edge cases never fail, and with a total duration of 0
every cue still lasts at least 0.3 seconds through the
minimum-cue-duration rule. -/
theorem empty_sentences_header_and_zero_duration_clamped
    (text : List Char) (dur : ℚ) (lin lout pg sg : ℤ) :
    (split_into_sentences text = [] →
        create_simple_vtt text dur lin lout pg sg = "WEBVTT\n\n".data)
      ∧ ∀ c ∈ simpleCues text 0 lin lout pg sg, 3/10 ≤ c.endTime - c.startTime := by
  constructor
  · intro h
    simp only [create_simple_vtt]
    rw [h]
    simp
  · exact cuesOrdered_mem _ _ (simpleCues_ordered text 0 lin lout pg sg)

/-- Witness for C3 at the empty text. -/
theorem empty_sentences_header_and_zero_duration_clamped_witness :
    split_into_sentences "".data = []
      ∧ create_simple_vtt "".data 7 50 120 600 150 = "WEBVTT\n\n".data :=
  ⟨by decide,
   (empty_sentences_header_and_zero_duration_clamped "".data 7 50 120 600 150).1
     (by decide)⟩

/-- C4 counterexample: the three sequences here are non-empty but of
unequal length (two characters, one start time), yet the grouper returns
a non-empty cue sequence instead of the empty one the claim requires. -/
theorem alignment_unequal_lengths_not_rejected :
    "ab".data.length ≠ ([(0 : ℚ)]).length
      ∧ alignmentCues "ab".data [(0 : ℚ)] [0, 1] = .ok [⟨0, 1, "ab".data⟩] :=
  ⟨by decide, by with_unfolding_all decide⟩

/-- C4 amended: the grouper validates only emptiness, not equal length:
whenever any of the three sequences is empty it returns an empty cue
sequence and never raises; with non-empty sequences of unequal length it
may instead return non-empty cues (surplus timing entries ignored) or
propagate an index error (characters outnumbering timing entries). -/
theorem alignment_empty_input_yields_no_cues
    (characters : List Char) (starts ends : List ℚ)
    (h : characters = [] ∨ starts = [] ∨ ends = []) :
    alignmentCues characters starts ends = .ok [] := by
  simp only [alignmentCues]
  rw [if_pos h]

/-- Witness for C4 at an empty character sequence. -/
theorem alignment_empty_input_yields_no_cues_witness :
    ("".data = ([] : List Char) ∨ [(1 : ℚ)] = ([] : List ℚ) ∨ ([] : List ℚ) = [])
      ∧ alignmentCues "".data [(1 : ℚ)] [] = .ok [] :=
  ⟨Or.inl (by decide),
   alignment_empty_input_yields_no_cues "".data [(1 : ℚ)] [] (Or.inl (by decide))⟩

/-- C5 counterexample: at text Hi. Yo. with total duration 1 and the
default configuration, the second cue ends at 103/100, strictly after
the input duration: gaps are layered on top of the speaking-time budget,
so elapsed synthesized time exceeds the input duration. -/
theorem cue_end_exceeds_total_duration :
    (1 : ℚ) < ((simpleCues "Hi. Yo.".data 1 50 120 600 150).getD 1 ⟨0, 0, []⟩).endTime := by
  with_unfolding_all decide

/-- C5 amended: in the estimated-duration mode the final audio-time
cursor equals the input duration plus the sum of the inserted
inter-sentence and inter-paragraph gaps, so elapsed synthesized time
exceeds the input duration as soon as any gap is inserted, and cue end
times may exceed it as well. -/
theorem final_audio_cursor_is_duration_plus_gaps
    (text : List Char) (dur : ℚ) (lin lout pg sg : ℤ)
    (h : totalChars (split_into_sentences text) ≠ 0) :
    simpleFinalAudio text dur lin lout pg sg
      = dur + gapsAfterFirst ((pg : ℚ) / 1000) ((sg : ℚ) / 1000)
          (split_into_sentences text) := by
  simp only [simpleFinalAudio]
  rw [simpleCuesAux_cursor_true, speakSum_self _ _ h]
  ring

/-- Witness for C5 at the two-sentence text Hi. Yo. -/
theorem final_audio_cursor_is_duration_plus_gaps_witness :
    totalChars (split_into_sentences "Hi. Yo.".data) ≠ 0
      ∧ simpleFinalAudio "Hi. Yo.".data 1 50 120 600 150
          = 1 + gapsAfterFirst (((600 : ℤ) : ℚ) / 1000) (((150 : ℤ) : ℚ) / 1000)
              (split_into_sentences "Hi. Yo.".data) :=
  ⟨by decide,
   final_audio_cursor_is_duration_plus_gaps "Hi. Yo.".data 1 50 120 600 150
     (by decide)⟩

/-- C6: the abbreviation Dr. does not split early and the following
sentence led by the pronoun He is not merged: exactly two sentences come
back, in order. -/
theorem dr_smith_segments_into_two_sentences :
    split_into_sentences "Dr. Smith arrived. He left.".data
      = [⟨"Dr. Smith arrived.".data, false⟩, ⟨"He left.".data, false⟩] := by
  decide

/-- C8: characters of Hi there. with per-character timestamps spanning
0 to 1 yield exactly one cue from the first start time to the last end
time with the words rejoined by single spaces. -/
theorem alignment_hi_there_single_cue :
    alignmentCues "Hi there.".data
        [0, 1/9, 2/9, 3/9, 4/9, 5/9, 6/9, 7/9, 8/9]
        [1/9, 2/9, 3/9, 4/9, 5/9, 6/9, 7/9, 8/9, 1]
      = .ok [⟨0, 1, "Hi there.".data⟩] := by
  with_unfolding_all decide

lemma getLast?_append_right {α : Type _} (b l : List α) (h : l ≠ []) :
    (b ++ l).getLast? = l.getLast? := by
  obtain ⟨x, xs, rfl⟩ := List.exists_cons_of_ne_nil h
  rw [List.getLast?_append_cons]

lemma shouldMerge_append (b l : List SentencePiece) (h : l ≠ []) (first : Bool) (part : List Char) :
    shouldMerge (b ++ l) first part = shouldMerge l first part := by
  simp only [shouldMerge]
  rw [getLast?_append_right b l h]

lemma shouldMerge_first_true (acc : List SentencePiece) (part : List Char) :
    shouldMerge acc true part = false := by
  simp only [shouldMerge]
  cases acc.getLast? <;> simp

lemma mergeLast_cons_of_ne (part : List Char) (s : SentencePiece) (r : List SentencePiece)
    (h : r ≠ []) : mergeLast part (s :: r) = s :: mergeLast part r := by
  cases r with
  | nil => exact absurd rfl h
  | cons t rest => rfl

lemma mergeLast_append (part : List Char) (b l : List SentencePiece) (h : l ≠ []) :
    mergeLast part (b ++ l) = b ++ mergeLast part l := by
  induction b with
  | nil => rfl
  | cons x xs ih =>
    rw [List.cons_append,
      mergeLast_cons_of_ne part x (xs ++ l) (fun hh => h (List.append_eq_nil.mp hh).2),
      ih, List.cons_append]

lemma mergeLast_ne_nil (part : List Char) (l : List SentencePiece) (h : l ≠ []) :
    mergeLast part l ≠ [] := by
  match l, h with
  | [s], _ => simp [mergeLast]
  | s :: t :: rest, _ => simp [mergeLast]

lemma processParts_append (seen : Bool) :
    ∀ (ps : List (List Char)) (b l : List SentencePiece), l ≠ [] →
      processParts seen ps false (b ++ l) = b ++ processParts seen ps false l
  | [], b, l, h => rfl
  | p :: ps, b, l, h => by
    simp only [processParts]
    by_cases h1 : pyStrip p = []
    · rw [if_pos h1, if_pos h1]
      exact processParts_append seen ps b l h
    · rw [if_neg h1, if_neg h1, shouldMerge_append b l h]
      by_cases h2 : shouldMerge l false (pyStrip p) = true
      · rw [if_pos h2, if_pos h2, mergeLast_append _ b l h]
        exact processParts_append seen ps b _ (mergeLast_ne_nil _ l h)
      · rw [if_neg h2, if_neg h2, List.append_assoc]
        exact processParts_append seen ps b (l ++ [⟨pyStrip p, seen && false⟩]) (by simp)

lemma processParts_true_base (seen : Bool) :
    ∀ (ps : List (List Char)) (acc : List SentencePiece),
      processParts seen ps true acc = acc ++ processParts seen ps true []
  | [], acc => by simp [processParts]
  | p :: ps, acc => by
    simp only [processParts]
    by_cases h1 : pyStrip p = []
    · rw [if_pos h1, if_pos h1]
      exact processParts_true_base seen ps acc
    · rw [if_neg h1, if_neg h1, shouldMerge_first_true, shouldMerge_first_true]
      simp only [Bool.false_eq_true, if_false, List.nil_append]
      exact processParts_append seen ps acc [⟨pyStrip p, seen && true⟩] (by simp)

lemma paraLoop_spec :
    ∀ (ps : List (List Char)) (seen : Bool) (acc : List SentencePiece),
      paraLoop ps seen acc = acc ++ perParagraphSplit seen ps
  | [], seen, acc => by simp [paraLoop, perParagraphSplit]
  | p :: ps, seen, acc => by
    simp only [paraLoop, perParagraphSplit]
    by_cases h1 : pyStrip p = []
    · rw [if_pos h1, if_pos h1]
      exact paraLoop_spec ps seen acc
    · rw [if_neg h1, if_neg h1, paraLoop_spec ps true _,
        processParts_true_base seen _ acc, List.append_assoc]
      rfl

lemma filterNW_append (a b : List Char) : filterNW (a ++ b) = filterNW a ++ filterNW b :=
  List.filter_append a b

lemma filterNW_cons (c : Char) (l : List Char) :
    filterNW (c :: l) = filterNW [c] ++ filterNW l := by
  rw [show (c :: l) = [c] ++ l from rfl, filterNW_append]

lemma filterNW_ws (c : Char) (l : List Char) (h : pyIsSpace c = true) :
    filterNW (c :: l) = filterNW l := by
  simp [filterNW, List.filter_cons, h]

lemma filterNW_dropWhile (l : List Char) :
    filterNW (l.dropWhile pyIsSpace) = filterNW l := by
  induction l with
  | nil => rfl
  | cons c cl ih =>
    cases h : pyIsSpace c with
    | true => rw [List.dropWhile_cons_of_pos h, ih, filterNW_ws c cl h]
    | false => rw [List.dropWhile_cons_of_neg (by simp [h])]

lemma filterNW_reverse (l : List Char) : filterNW l.reverse = (filterNW l).reverse :=
  List.filter_reverse _ l

lemma filterNW_pyStrip (l : List Char) : filterNW (pyStrip l) = filterNW l := by
  simp only [pyStrip]
  rw [filterNW_reverse, filterNW_dropWhile, filterNW_reverse, List.reverse_reverse,
    filterNW_dropWhile]

lemma filterNW_of_pyStrip_nil (l : List Char) (h : pyStrip l = []) : filterNW l = [] := by
  rw [← filterNW_pyStrip l, h]
  rfl

lemma flat_consHead (c : Char) (S : List (List Char)) :
    ((consHead c S).map filterNW).flatten = filterNW [c] ++ (S.map filterNW).flatten := by
  cases S with
  | nil => simp [consHead]
  | cons p ps => simp [consHead, filterNW_cons c p]

lemma flat_splitOnNN : ∀ l : List Char, ((splitOnNN l).map filterNW).flatten = filterNW l
  | [] => by simp [splitOnNN, filterNW]
  | [c] => by simp [splitOnNN]
  | c :: d :: rest => by
    rw [splitOnNN]
    split_ifs with h
    · obtain ⟨hc, hd⟩ := h
      subst hc
      subst hd
      simp only [List.map_cons, List.flatten_cons]
      rw [flat_splitOnNN rest, filterNW_ws _ _ (by decide), filterNW_ws _ _ (by decide)]
      rfl
    · rw [flat_consHead, flat_splitOnNN (d :: rest), ← filterNW_cons]

lemma flat_reSplitAux : ∀ (sk pt : Bool) (l : List Char),
    ((reSplitAux sk pt l).map filterNW).flatten = filterNW l
  | _, _, [] => by simp [reSplitAux, filterNW]
  | sk, pt, c :: rest => by
    rw [reSplitAux]
    split_ifs with h1 h2 h3
    · rw [flat_reSplitAux true false rest, filterNW_ws c rest h2]
    · rw [flat_consHead, flat_reSplitAux false (isTerm c) rest, ← filterNW_cons]
    · have hws : pyIsSpace c = true := by
        simp [Bool.and_eq_true] at h3
        exact h3.2
      rw [List.map_cons]
      simp only [List.flatten_cons]
      rw [flat_reSplitAux true false rest, filterNW_ws c rest hws]
      rfl
    · rw [flat_consHead, flat_reSplitAux false (isTerm c) rest, ← filterNW_cons]

lemma nwConcat_append (a b : List SentencePiece) :
    nwConcat (a ++ b) = nwConcat a ++ nwConcat b := by
  simp [nwConcat]

lemma nwConcat_mergeLast : ∀ (part : List Char) (l : List SentencePiece), l ≠ [] →
    nwConcat (mergeLast part l) = nwConcat l ++ filterNW part
  | part, [s], _ => by
    simp only [mergeLast, nwConcat, List.map_cons, List.map_nil, List.flatten_cons,
      List.flatten_nil, List.append_nil]
    rw [filterNW_append, filterNW_ws _ _ (by decide)]
  | part, s :: t :: rest, _ => by
    simp only [mergeLast, nwConcat, List.map_cons, List.flatten_cons]
    have ih := nwConcat_mergeLast part (t :: rest) (by simp)
    simp only [nwConcat, List.map_cons, List.flatten_cons] at ih
    rw [ih]
    simp [List.append_assoc]

lemma shouldMerge_ne_nil (acc : List SentencePiece) (first : Bool) (part : List Char)
    (h : shouldMerge acc first part = true) : acc ≠ [] := by
  intro hnil
  subst hnil
  simp [shouldMerge] at h

lemma processParts_nw (seen : Bool) :
    ∀ (ps : List (List Char)) (first : Bool) (acc : List SentencePiece),
      nwConcat (processParts seen ps first acc) = nwConcat acc ++ (ps.map filterNW).flatten
  | [], first, acc => by simp [processParts]
  | p :: ps, first, acc => by
    simp only [processParts, List.map_cons, List.flatten_cons]
    by_cases h1 : pyStrip p = []
    · rw [if_pos h1, processParts_nw seen ps first acc, filterNW_of_pyStrip_nil p h1]
      rfl
    · rw [if_neg h1]
      by_cases h2 : shouldMerge acc first (pyStrip p) = true
      · rw [if_pos h2, processParts_nw seen ps false _,
          nwConcat_mergeLast _ acc (shouldMerge_ne_nil acc first _ h2), filterNW_pyStrip,
          List.append_assoc]
      · rw [if_neg h2, processParts_nw seen ps false _, nwConcat_append]
        simp only [nwConcat, List.map_cons, List.map_nil, List.flatten_cons,
          List.flatten_nil, List.append_nil]
        rw [filterNW_pyStrip, List.append_assoc]

lemma paraLoop_nw : ∀ (ps : List (List Char)) (seen : Bool) (acc : List SentencePiece),
    nwConcat (paraLoop ps seen acc) = nwConcat acc ++ (ps.map filterNW).flatten
  | [], seen, acc => by simp [paraLoop]
  | p :: ps, seen, acc => by
    simp only [paraLoop, List.map_cons, List.flatten_cons]
    by_cases h1 : pyStrip p = []
    · rw [if_pos h1, paraLoop_nw ps seen acc, filterNW_of_pyStrip_nil p h1]
      rfl
    · rw [if_neg h1, paraLoop_nw ps true _, processParts_nw seen _ true acc]
      have hp : ((reSplitSent (pyStrip p)).map filterNW).flatten = filterNW p := by
        unfold reSplitSent
        rw [flat_reSplitAux, filterNW_pyStrip]
      rw [hp, List.append_assoc]

/-- C7: deleting whitespace, the concatenation of the sentence texts of
split_into_sentences reproduces exactly the non-whitespace characters of
the input, in order. -/
theorem segmentation_preserves_non_whitespace (text : List Char) (h : text ≠ []) :
    filterNW ((split_into_sentences text).map SentencePiece.text).flatten = filterNW text := by
  have h1 : filterNW (((split_into_sentences text).map SentencePiece.text).flatten)
      = nwConcat (split_into_sentences text) := by
    simp only [filterNW, nwConcat, List.filter_flatten, List.map_map]
    rfl
  rw [h1]
  simp only [split_into_sentences]
  rw [paraLoop_nw]
  simp only [nwConcat, List.map_nil, List.flatten_nil, List.nil_append]
  exact flat_splitOnNN text

/-- Witness for C7 at the text Hi. -/
theorem segmentation_preserves_non_whitespace_witness :
    "Hi.".data ≠ ([] : List Char)
      ∧ filterNW ((split_into_sentences "Hi.".data).map SentencePiece.text).flatten
          = filterNW "Hi.".data :=
  ⟨by decide, segmentation_preserves_non_whitespace "Hi.".data (by decide)⟩

/-- C10: segmentation equals per-paragraph processing concatenated: the
first accepted candidate of each paragraph always opens a fresh
SentenceUnit in a block computed from that paragraph alone, so a merge
never reaches into an earlier paragraph, every sentence text is drawn
from a single paragraph, and sentences of earlier paragraphs (flags
included) are left untouched. -/
theorem merging_never_crosses_paragraphs (text : List Char) :
    split_into_sentences text = perParagraphSplit false (splitOnNN text) := by
  simp only [split_into_sentences]
  rw [paraLoop_spec]
  simp

set_option maxRecDepth 100000 in
lemma pad2_facts : ∀ n : ℕ, n < 100 →
    (padLeftZeros 2 (natRepr n)).length = 2
      ∧ ∀ c ∈ padLeftZeros 2 (natRepr n), c.isDigit = true := by decide

set_option maxRecDepth 1000000 in
lemma pad3_facts : ∀ n : ℕ, n < 1000 →
    (padLeftZeros 3 (natRepr n)).length = 3
      ∧ ∀ c ∈ padLeftZeros 3 (natRepr n), c.isDigit = true := by decide

lemma pyMod_eq_fract (q m : ℚ) (hm : m ≠ 0) : pyMod q m = m * Int.fract (q / m) := by
  simp only [pyMod, Int.fract]
  field_simp

lemma pyMod_nonneg (q m : ℚ) (hm : 0 < m) : 0 ≤ pyMod q m := by
  rw [pyMod_eq_fract q m (ne_of_gt hm)]
  exact mul_nonneg hm.le (Int.fract_nonneg _)

lemma pyMod_lt (q m : ℚ) (hm : 0 < m) : pyMod q m < m := by
  rw [pyMod_eq_fract q m (ne_of_gt hm)]
  calc m * Int.fract (q / m) < m * 1 := (mul_lt_mul_left hm).mpr (Int.fract_lt_one _)
    _ = m := mul_one m

lemma rhe_nonneg (q : ℚ) (h : 0 ≤ q) : 0 ≤ roundHalfEven q := by
  simp only [roundHalfEven]
  have hf : 0 ≤ ⌊q⌋ := Int.floor_nonneg.mpr h
  split_ifs <;> omega

lemma rhe_le (q : ℚ) (n : ℤ) (h : q < (n : ℚ)) : roundHalfEven q ≤ n := by
  simp only [roundHalfEven]
  have hf : ⌊q⌋ < n := Int.floor_lt.mpr h
  split_ifs <;> omega

lemma zpadInt_nonneg (w : ℕ) (z : ℤ) (h : 0 ≤ z) :
    zpadInt w z = padLeftZeros w (natRepr z.toNat) := by
  simp [zpadInt, not_lt.mpr h]

lemma formatFixed3_nonneg (s : ℚ) (h : 0 ≤ roundHalfEven (s * 1000)) :
    formatFixed3 s
      = padLeftZeros 6 (natRepr ((roundHalfEven (s * 1000)).toNat / 1000)
          ++ '.' :: padLeftZeros 3 (natRepr ((roundHalfEven (s * 1000)).toNat % 1000))) := by
  simp [formatFixed3, not_lt.mpr h]

lemma padLeft6_split (ip tail : List Char) (h : tail.length = 4) :
    padLeftZeros 6 (ip ++ tail) = padLeftZeros 2 ip ++ tail := by
  simp only [padLeftZeros, List.length_append, h]
  have harith : 6 - (ip.length + 4) = 2 - ip.length := by omega
  rw [harith, List.append_assoc]

lemma secShape_build (ip p3 : List Char) (h2 : ip.length = 2)
    (hd : ∀ c ∈ ip, c.isDigit = true) (h3 : p3.length = 3)
    (hd3 : ∀ c ∈ p3, c.isDigit = true) : secShape (ip ++ '.' :: p3) = true := by
  obtain ⟨a, b, rfl⟩ := List.length_eq_two.mp h2
  obtain ⟨x, y, z, rfl⟩ := List.length_eq_three.mp h3
  simp [secShape, hd a (by simp), hd b (by simp), hd3 x (by simp), hd3 y (by simp),
    hd3 z (by simp)]

lemma vttShape_parts (hh mm ss : List Char)
    (hh2 : hh.length = 2) (hhd : ∀ c ∈ hh, c.isDigit = true)
    (mm2 : mm.length = 2) (mmd : ∀ c ∈ mm, c.isDigit = true)
    (hss : secShape ss = true) :
    vttShape (hh ++ ':' :: mm ++ ':' :: ss) = true := by
  obtain ⟨a, b, rfl⟩ := List.length_eq_two.mp hh2
  obtain ⟨c, d, rfl⟩ := List.length_eq_two.mp mm2
  rcases ss with _ | ⟨u, _ | ⟨v, _ | ⟨dd, _ | ⟨x, _ | ⟨y, _ | ⟨z, _ | ⟨w, tl⟩⟩⟩⟩⟩⟩⟩
  · simp [secShape] at hss
  · simp [secShape] at hss
  · simp [secShape] at hss
  · simp [secShape] at hss
  · simp [secShape] at hss
  · simp [secShape] at hss
  · simp only [secShape, Bool.and_eq_true, decide_eq_true_eq] at hss
    obtain ⟨⟨⟨⟨⟨hu, hv⟩, hdd⟩, hx⟩, hy⟩, hz⟩ := hss
    simp [vttShape, hu, hv, hdd, hx, hy, hz, hhd a (by simp), hhd b (by simp),
      mmd c (by simp), mmd d (by simp)]
  · simp [secShape] at hss

lemma format_timestamp_shape (q : ℚ) (h0 : 0 ≤ q) (h1 : q < 360000) :
    vttShape (format_timestamp q) = true := by
  have hq3600 : (0 : ℚ) < 3600 := by norm_num
  have hh0 : 0 ≤ ⌊q / 3600⌋ := Int.floor_nonneg.mpr (div_nonneg h0 hq3600.le)
  have hh1 : ⌊q / 3600⌋ < 100 := Int.floor_lt.mpr (by
    rw [div_lt_iff₀ hq3600]
    push_cast
    linarith)
  have hm0' : 0 ≤ pyMod q 3600 := pyMod_nonneg q 3600 hq3600
  have hm1' : pyMod q 3600 < 3600 := pyMod_lt q 3600 hq3600
  have hm0 : 0 ≤ ⌊pyMod q 3600 / 60⌋ :=
    Int.floor_nonneg.mpr (div_nonneg hm0' (by norm_num))
  have hm1 : ⌊pyMod q 3600 / 60⌋ < 100 := Int.floor_lt.mpr (by
    rw [div_lt_iff₀ (by norm_num : (0 : ℚ) < 60)]
    push_cast
    linarith)
  have hs0 : 0 ≤ pyMod q 60 := pyMod_nonneg q 60 (by norm_num)
  have hs1 : pyMod q 60 < 60 := pyMod_lt q 60 (by norm_num)
  have hr0 : 0 ≤ roundHalfEven (pyMod q 60 * 1000) :=
    rhe_nonneg _ (mul_nonneg hs0 (by norm_num))
  have hr1 : roundHalfEven (pyMod q 60 * 1000) ≤ 60000 := rhe_le _ 60000 (by
    push_cast
    linarith)
  have h60 : (roundHalfEven (pyMod q 60 * 1000)).toNat / 1000 < 100 := by omega
  have hmod : (roundHalfEven (pyMod q 60 * 1000)).toNat % 1000 < 1000 := by omega
  have hh1' : (⌊q / 3600⌋).toNat < 100 := by omega
  have hm1'' : (⌊pyMod q 3600 / 60⌋).toNat < 100 := by omega
  unfold format_timestamp
  rw [zpadInt_nonneg _ _ hh0, zpadInt_nonneg _ _ hm0, formatFixed3_nonneg _ hr0,
    padLeft6_split _ _ (by simp [(pad3_facts _ hmod).1])]
  exact vttShape_parts _ _ _ (pad2_facts _ hh1').1 (pad2_facts _ hh1').2
    (pad2_facts _ hm1'').1 (pad2_facts _ hm1'').2
    (secShape_build _ _ (pad2_facts _ h60).1 (pad2_facts _ h60).2
      (pad3_facts _ hmod).1 (pad3_facts _ hmod).2)

/-- C9 counterexample: at 100 hours the hour field is rendered with
three digits, since the 0-padded width-2 format is a minimum width: the
rendered timestamp is not of the two-digit HH:MM:SS.mmm shape. -/
theorem timestamp_three_digit_hours :
    vttShape (format_timestamp 360000) = false
      ∧ format_timestamp 360000 = "100:00:00.000".data :=
  ⟨by with_unfolding_all decide, by with_unfolding_all decide⟩

/-- C9 amended: 3661.005 seconds renders as 01:01:01.005, and every
timestamp of a nonnegative value below 100 hours has the
HH:MM:SS.mmm shape with two-digit hours, minutes and seconds and
three-digit milliseconds; hours are only a minimum width and widen
beyond two digits from 100 hours on. -/
theorem timestamp_shape_and_value :
    format_timestamp (3661005/1000) = "01:01:01.005".data
      ∧ ∀ q : ℚ, 0 ≤ q → q < 360000 → vttShape (format_timestamp q) = true :=
  ⟨by with_unfolding_all decide, fun q h0 h1 => format_timestamp_shape q h0 h1⟩

/-- Witness for C9 at 5 seconds. -/
theorem timestamp_shape_and_value_witness :
    (0 : ℚ) ≤ 5 ∧ (5 : ℚ) < 360000 ∧ vttShape (format_timestamp 5) = true :=
  ⟨by norm_num, by norm_num, timestamp_shape_and_value.2 5 (by norm_num) (by norm_num)⟩

end Captions
